import Mathlib

/-!
Verification of the astroml integrity/deduplication/validation pipeline
(`astroml/validation/{hashing,validator,dedupe,integrity}.py`) against its
specification.

Modelling conventions:
* Python values appearing in transaction records are modelled by `PyVal`
  (strings, integers, booleans, `None`).  A Python `dict` is modelled as an
  association list with the dict operations (`get?`, membership, item
  assignment) defined on it; Python dicts preserve insertion order and have
  unique keys, which the operations below reproduce.
* `json.dumps(hash_data, sort_keys=True, default=str)` is modelled by
  `dumps`, which sorts the dict items by key and serialises them with the
  separators json.dumps uses.
* SHA-256 itself is kept as an uninterpreted parameter `sha : String → String`
  applied to the canonical serialisation: every pipeline behaviour depends on
  digests only through equality, so theorems are stated for an arbitrary
  digest function (with an explicit collision-freedom hypothesis where the
  code relies on distinct records having distinct digests).  `idDigest` is
  used as the concrete digest function in witnesses.
* Wall-clock timestamps (`datetime.utcnow()`) are modelled by the opaque
  constant `utcNow`; no verified property inspects time.
* Logging calls (`logger.info` / `logger.warning`) are side channels with no
  effect on any result and are omitted.
-/

/-- Python values stored in transaction records. -/
inductive PyVal : Type where
  | str (s : String) : PyVal
  | int (n : Int) : PyVal
  | bool (b : Bool) : PyVal
  | null : PyVal
deriving DecidableEq, Repr

/-- Python runtime types, as used in a `field_types` map (`str`, `int`, ...). -/
inductive PyType : Type where
  | str : PyType
  | int : PyType
  | bool : PyType
deriving DecidableEq, Repr

/-- Python `isinstance(v, t)`.  Note that in Python `bool` is a subclass of
`int`, so `isinstance(True, int)` is `True`. -/
def pyIsinstance : PyVal → PyType → Bool
  | PyVal.str _, PyType.str => true
  | PyVal.int _, PyType.int => true
  | PyVal.bool _, PyType.bool => true
  | PyVal.bool _, PyType.int => true
  | _, _ => false

/-- A transaction record: a Python `dict` mapping field names to values,
modelled as an insertion-ordered association list with unique keys. -/
abbrev Record := List (String × PyVal)

namespace Record

/-- The `transaction.get(k)` / `transaction[k]` lookup (first matching key). -/
def get? (tx : Record) (k : String) : Option PyVal :=
  (tx.find? (fun p => p.1 = k)).map (fun p => p.2)

/-- Python `k in transaction` membership test on a dict. -/
def hasKey (tx : Record) (k : String) : Bool :=
  tx.any (fun p => p.1 = k)

/-- Python dict item assignment `d[k] = v`: overwrite in place when the key is
present, append otherwise. -/
def dictSet (d : Record) (k : String) (v : PyVal) : Record :=
  if d.any (fun p => p.1 = k) then
    d.map (fun p => if p.1 = k then (k, v) else p)
  else
    d ++ [(k, v)]

end Record

/-- JSON escaping of one character as performed by `json.dumps` on the
characters occurring in this development (quote, backslash, and common control
characters; other characters are passed through). -/
def jsonEscapeChar (c : Char) : String :=
  if c = '"' then "\\\""
  else if c = '\\' then "\\\\"
  else if c = '\n' then "\\n"
  else if c = '\t' then "\\t"
  else if c = '\r' then "\\r"
  else String.singleton c

/-- JSON string literal serialisation. -/
def jsonString (s : String) : String :=
  "\"" ++ String.join (s.toList.map jsonEscapeChar) ++ "\""

/-- JSON serialisation of a single value (`default=str` never fires on the
modelled value types; ints, bools and None serialise as JSON scalars). -/
def jsonVal : PyVal → String
  | PyVal.str s => jsonString s
  | PyVal.int n => toString n
  | PyVal.bool b => if b then "true" else "false"
  | PyVal.null => "null"

/-- Lexicographic code-point comparison of character lists: the order Python
uses on `str` keys (and `json.dumps(..., sort_keys=True)` relies on). -/
def charListLe : List Char → List Char → Bool
  | [], _ => true
  | _ :: _, [] => false
  | a :: as, b :: bs =>
    if a.toNat < b.toNat then true
    else if b.toNat < a.toNat then false
    else charListLe as bs

/-- Lexicographic code-point comparison of strings. -/
def keyLe (a b : String) : Bool := charListLe a.toList b.toList

/-- Insert a key-value pair into a list sorted by key (lexicographic string
order), used to model `sort_keys=True`. -/
def insertByKey (p : String × PyVal) : List (String × PyVal) → List (String × PyVal)
  | [] => [p]
  | q :: qs => if keyLe p.1 q.1 then p :: q :: qs else q :: insertByKey p qs

/-- Sort dict items by key, as `json.dumps(..., sort_keys=True)` does. -/
def sortByKey (l : List (String × PyVal)) : List (String × PyVal) :=
  l.foldr insertByKey []

/-- The `json.dumps(d, sort_keys=True, default=str)`: keys sorted, items joined
with the default separators `", "` and `": "`. -/
def dumps (d : Record) : String :=
  "\x7b" ++
    String.intercalate ", "
      ((sortByKey d).map (fun p => jsonString p.1 ++ ": " ++ jsonVal p.2)) ++
  "\x7d"

/-- The `DEFAULT_HASH_FIELDS = {"id", "payload", "timestamp"}` (a Python set;
iteration order is immaterial because `dumps` sorts keys). -/
def DEFAULT_HASH_FIELDS : List String := ["id", "payload", "timestamp"]

/-- The `hash_data` dict built by `compute_transaction_hash`: for each
requested field present in the transaction, `hash_data[field] =
transaction[field]`. -/
def buildHashData (tx : Record) (fields : List String) : Record :=
  fields.foldl
    (fun d f =>
      match tx.get? f with
      | some v => d.dictSet f v
      | none => d)
    []

/-- The `compute_transaction_hash(transaction, fields=None, stored_hash=None)`:
project the transaction onto the requested fields (defaulting to
`DEFAULT_HASH_FIELDS`), serialise with sorted keys, and digest.  The
`stored_hash` argument only triggers an advisory log message and does not
affect the returned value, so it is omitted here. -/
def compute_transaction_hash (sha : String → String) (tx : Record)
    (fields : Option (List String)) : String :=
  sha (dumps (buildHashData tx (fields.getD DEFAULT_HASH_FIELDS)))

/-- The identity digest, used to instantiate `sha` in concrete witnesses:
digest equality then coincides with equality of canonical serialisations. -/
def idDigest : String → String := fun s => s

/-! ## Validator (`astroml/validation/validator.py`) -/

/-- The `CorruptionType` constants. -/
def CorruptionType.MISSING_FIELD : String := "MISSING_FIELD"

def CorruptionType.INVALID_TYPE : String := "INVALID_TYPE"

def CorruptionType.HASH_MISMATCH : String := "HASH_MISMATCH"

def CorruptionType.MALFORMED_STRUCTURE : String := "MALFORMED_STRUCTURE"

/-- The `datetime.utcnow().isoformat() + "Z"`: a wall-clock reading, modelled as an
opaque fixed constant; no verified property inspects timestamps. -/
def utcNow : String := "1970-01-01T00:00:00Z"

/-- Python `type(v).__name__` on the modelled value types. -/
def pyTypeName : PyVal → String
  | PyVal.str _ => "str"
  | PyVal.int _ => "int"
  | PyVal.bool _ => "bool"
  | PyVal.null => "NoneType"

/-- Printable name of an expected type from a `field_types` map. -/
def PyType.name : PyType → String
  | PyType.str => "str"
  | PyType.int => "int"
  | PyType.bool => "bool"

/-- The `ValidationError` dataclass. -/
structure ValidationError : Type where
  transaction_id : Option PyVal
  error_type : String
  message : String
  field : Option String := none
  timestamp : String := utcNow
deriving DecidableEq, Repr

/-- The `ValidationResult` dataclass. -/
structure ValidationResult : Type where
  is_valid : Bool
  errors : List ValidationError
  transaction_id : Option PyVal
  hash : String
deriving DecidableEq, Repr

/-- The `TransactionValidator` configuration.  `required_fields` is stored already
defaulted: the constructor does `self.required_fields = required_fields or
{"id"}`, so `None` (and the falsy empty set) become `{"id"}`. -/
structure TransactionValidator : Type where
  required_fields : List String
  field_types : List (String × PyType)
  hash_fields : Option (List String)
deriving DecidableEq, Repr

/-- The `TransactionValidator.__init__`: applies the `required_fields or {"id"}`
and `field_types or {}` defaults. -/
def TransactionValidator.init (required_fields : Option (List String))
    (field_types : List (String × PyType))
    (hash_fields : Option (List String)) : TransactionValidator :=
  { required_fields :=
      match required_fields with
      | none => ["id"]
      | some l => if l = [] then ["id"] else l
    field_types := field_types
    hash_fields := hash_fields }

/-- Body of `TransactionValidator.validate` once the argument is known to be a
dict: the missing-required-field loop, the type-check loop, the
`isinstance(transaction, dict)` check (vacuous on a dict), the hash
computation, and the optional stored-hash comparison. -/
def TransactionValidator.validateRecord (sha : String → String)
    (v : TransactionValidator) (tx : Record)
    (stored_hash : Option String) : ValidationResult :=
  let transaction_id := tx.get? "id"
  let missingErrors := v.required_fields.filterMap (fun f =>
    match tx.get? f with
    | none => some
        { transaction_id := transaction_id
          error_type := CorruptionType.MISSING_FIELD
          message := "Required field \x27" ++ f ++ "\x27 is missing or null"
          field := some f }
    | some PyVal.null => some
        { transaction_id := transaction_id
          error_type := CorruptionType.MISSING_FIELD
          message := "Required field \x27" ++ f ++ "\x27 is missing or null"
          field := some f }
    | some _ => none)
  let typeErrors := v.field_types.filterMap (fun ft =>
    match tx.get? ft.1 with
    | none => none
    | some PyVal.null => none
    | some w =>
        if pyIsinstance w ft.2 then none
        else some
          { transaction_id := transaction_id
            error_type := CorruptionType.INVALID_TYPE
            message := "Field \x27" ++ ft.1 ++ "\x27 has type " ++ pyTypeName w
              ++ ", expected " ++ ft.2.name
            field := some ft.1 })
  let tx_hash := compute_transaction_hash sha tx v.hash_fields
  let mismatchErrors :=
    match stored_hash with
    | none => []
    | some sh =>
        if sh ≠ tx_hash then
          [{ transaction_id := transaction_id
             error_type := CorruptionType.HASH_MISMATCH
             message := "Hash mismatch: expected " ++ sh ++ ", computed " ++ tx_hash }]
        else []
  let errors := missingErrors ++ typeErrors ++ mismatchErrors
  { is_valid := errors.isEmpty
    errors := errors
    transaction_id := transaction_id
    hash := tx_hash }

/-- A Python object handed to `validate`, which is annotated `Dict[str, Any]`
but can dynamically receive any value. -/
inductive PyObj : Type where
  | dict (r : Record) : PyObj
  | str (s : String) : PyObj
  | list (l : List PyVal) : PyObj
  | int (n : Int) : PyObj
  | none : PyObj
deriving DecidableEq, Repr

/-- A Python exception escaping `validate`. -/
inductive PyErr : Type where
  | attributeError (typeName attrName : String) : PyErr
deriving DecidableEq, Repr

/-- The `TransactionValidator.validate(transaction, stored_hash=None)` on an
arbitrary Python object.  Its first statement is `transaction_id =
transaction.get("id")`: on a built-in non-dict value (`str`, `list`, `int`,
`None`) attribute lookup of `get` raises `AttributeError` immediately, before
any of the validation checks — including the
`isinstance(transaction, dict)` malformed-structure check — can run.  On a
dict the body runs to completion and returns a `ValidationResult`. -/
def TransactionValidator.validate (sha : String → String)
    (v : TransactionValidator) (transaction : PyObj)
    (stored_hash : Option String) : Except PyErr ValidationResult :=
  match transaction with
  | PyObj.dict r => Except.ok (v.validateRecord sha r stored_hash)
  | PyObj.str _ => Except.error (PyErr.attributeError "str" "get")
  | PyObj.list _ => Except.error (PyErr.attributeError "list" "get")
  | PyObj.int _ => Except.error (PyErr.attributeError "int" "get")
  | PyObj.none => Except.error (PyErr.attributeError "NoneType" "get")

/-! ## Deduplicator (`astroml/validation/dedupe.py`) -/

/-- The `ConflictType` constants. -/
def ConflictType.DUPLICATE : String := "DUPLICATE"

def ConflictType.CORRUPTED : String := "CORRUPTED"

/-- The `ConflictRecord` dataclass. -/
structure ConflictRecord : Type where
  transaction_id : Option PyVal
  hash : String
  conflict_type : String
  timestamp : String
  source : Option String := none
  message : String := ""
deriving DecidableEq, Repr

/-- The `DeduplicationResult` dataclass. -/
structure DeduplicationResult : Type where
  unique : List Record := []
  duplicates : List Record := []
  hashes : List String := []
  conflicts : List ConflictRecord := []
deriving DecidableEq, Repr

/-- Insert into a Python set modelled as a duplicate-free list: membership is
unchanged when present, the element is appended when absent. -/
def setAdd (s : List String) (h : String) : List String :=
  if h ∈ s then s else s ++ [h]

/-- The `Deduplicator` instance state: the configured `hash_fields`, the mutable
`_seen_hashes` set, the `_track_conflicts` flag and the `_conflicts` log. -/
structure Deduplicator : Type where
  hash_fields : Option (List String)
  seen_hashes : List String := []
  track_conflicts : Bool := true
  conflicts : List ConflictRecord := []
deriving DecidableEq, Repr

/-- The `Deduplicator.__init__(hash_fields=None, track_conflicts=True)`. -/
def Deduplicator.init (hash_fields : Option (List String))
    (track_conflicts : Bool) : Deduplicator :=
  { hash_fields := hash_fields, seen_hashes := [],
    track_conflicts := track_conflicts, conflicts := [] }

/-- The `Deduplicator.reset()`: clears both the seen set and the conflict log. -/
def Deduplicator.reset (dd : Deduplicator) : Deduplicator :=
  { dd with seen_hashes := [], conflicts := [] }

/-- The ConflictRecord built by `Deduplicator._log_conflict`. -/
def mkLogConflict (tx : Record) (hash_value : String) (conflict_type : String)
    (source : Option String) : ConflictRecord :=
  { transaction_id := tx.get? "id"
    hash := hash_value
    conflict_type := conflict_type
    timestamp := utcNow
    source := source
    message := "Transaction " ++ conflict_type.toLower ++ " detected" }

/-- The `Deduplicator._log_conflict`: builds the ConflictRecord and appends it to
`_conflicts` when `_track_conflicts` is set (the `logger.info` call has no
effect on state). -/
def Deduplicator.log_conflict (dd : Deduplicator) (tx : Record)
    (hash_value : String) (conflict_type : String)
    (source : Option String) : Deduplicator :=
  if dd.track_conflicts then
    { dd with conflicts := dd.conflicts ++ [mkLogConflict tx hash_value conflict_type source] }
  else dd

/-- The `Deduplicator.add(transaction, source=None)`: compute the fingerprint; on
a hit log a Duplicate conflict and return `False` without touching the seen
set; on a miss insert the fingerprint and return `True`. -/
def Deduplicator.add (sha : String → String) (dd : Deduplicator) (tx : Record)
    (source : Option String) : Deduplicator × Bool :=
  let hash_value := compute_transaction_hash sha tx dd.hash_fields
  if hash_value ∈ dd.seen_hashes then
    (dd.log_conflict tx hash_value ConflictType.DUPLICATE source, false)
  else
    ({ dd with seen_hashes := dd.seen_hashes ++ [hash_value] }, true)

/-- The `Deduplicator.check(transaction)`: membership test on the seen set.  The
method body neither assigns to any attribute nor calls `_log_conflict`, so the
state component of the returned pair is the input state unchanged. -/
def Deduplicator.check (sha : String → String) (dd : Deduplicator)
    (tx : Record) : Deduplicator × Bool :=
  (dd, compute_transaction_hash sha tx dd.hash_fields ∈ dd.seen_hashes)

/-- Loop body of `Deduplicator.process`: classify one transaction, then add
its hash to the result's `hashes` set unconditionally. -/
def Deduplicator.processStep (sha : String → String) (source : Option String)
    (st : Deduplicator × DeduplicationResult) (tx : Record) :
    Deduplicator × DeduplicationResult :=
  let dd := st.1
  let result := st.2
  let hash_value := compute_transaction_hash sha tx dd.hash_fields
  let next :=
    if hash_value ∈ dd.seen_hashes then
      (dd.log_conflict tx hash_value ConflictType.DUPLICATE source,
       { result with duplicates := result.duplicates ++ [tx] })
    else
      ({ dd with seen_hashes := dd.seen_hashes ++ [hash_value] },
       { result with unique := result.unique ++ [tx] })
  (next.1, { next.2 with hashes := setAdd next.2.hashes hash_value })

/-- The `Deduplicator.process(transactions, source=None)`: fold the loop body over
the batch in input order, starting from an empty `DeduplicationResult`. -/
def Deduplicator.process (sha : String → String) (dd : Deduplicator)
    (transactions : List Record) (source : Option String) :
    Deduplicator × DeduplicationResult :=
  transactions.foldl (Deduplicator.processStep sha source) (dd, {})

/-- The `Deduplicator.filter_duplicates(transactions, return_unique=True)`. -/
def Deduplicator.filter_duplicates (sha : String → String) (dd : Deduplicator)
    (transactions : List Record) (return_unique : Bool) :
    Deduplicator × List Record :=
  let r := dd.process sha transactions none
  (r.1, if return_unique then r.2.unique else r.2.duplicates)

/-! ## Integrity pipeline (`astroml/validation/integrity.py`) -/

/-- The `IntegrityResult` dataclass. -/
structure IntegrityResult : Type where
  valid : List Record := []
  duplicates : List Record := []
  corrupted : List Record := []
  all_hashes : List String := []
  validation_errors : List ValidationError := []
  conflicts : List ConflictRecord := []
deriving DecidableEq, Repr

/-- The `IntegrityResult.is_valid`: no corrupted transactions. -/
def IntegrityResult.is_valid (r : IntegrityResult) : Bool :=
  r.corrupted.length = 0

/-- The `IntegrityResult.has_duplicates`. -/
def IntegrityResult.has_duplicates (r : IntegrityResult) : Bool :=
  r.duplicates.length > 0

/-- The `IntegrityError` exception, carrying its message string. -/
structure IntegrityError : Type where
  message : String
deriving DecidableEq, Repr

/-- The `IntegrityValidator` instance state: the internal `Deduplicator` (the only
mutable part), the internal `TransactionValidator`, the `strict` flag and the
`hash_fields` configuration. -/
structure IntegrityValidator : Type where
  dedup : Deduplicator
  validator : TransactionValidator
  strict : Bool
  hash_fields : Option (List String)
deriving DecidableEq, Repr

/-- The `IntegrityValidator.__init__(required_fields=None, field_types=None,
hash_fields=None, strict=False)`: builds the internal
`Deduplicator(hash_fields=hash_fields)` (conflict tracking on by default) and
`TransactionValidator`. -/
def IntegrityValidator.init (required_fields : Option (List String))
    (field_types : List (String × PyType))
    (hash_fields : Option (List String)) (strict : Bool) : IntegrityValidator :=
  { dedup := Deduplicator.init hash_fields true
    validator := TransactionValidator.init required_fields field_types hash_fields
    strict := strict
    hash_fields := hash_fields }

/-- The `IntegrityValidator.reset()`: delegates to the deduplicator's reset. -/
def IntegrityValidator.reset (v : IntegrityValidator) : IntegrityValidator :=
  { v with dedup := v.dedup.reset }

/-- The `IntegrityValidator.conflicts` property: a copy of the internal
deduplicator's conflict log. -/
def IntegrityValidator.conflicts (v : IntegrityValidator) : List ConflictRecord :=
  v.dedup.conflicts

/-- The `message` of the first validation error (`validation.errors[0].message`);
only evaluated on nonempty error lists in the pipeline. -/
def firstErrorMessage (errors : List ValidationError) : String :=
  match errors with
  | [] => ""
  | e :: _ => e.message

/-- The Corrupted ConflictRecord built inline by `IntegrityValidator.process`
for a corrupted transaction in non-strict mode. -/
def mkCorruptedConflict (validation : ValidationResult) (hash_value : String)
    (source : Option String) : ConflictRecord :=
  { transaction_id := validation.transaction_id
    hash := hash_value
    conflict_type := ConflictType.CORRUPTED
    timestamp :=
      match validation.errors with
      | [] => ""
      | e :: _ => e.timestamp
    source := source
    message := "Corruption detected: " ++ firstErrorMessage validation.errors }

/-- Loop of `IntegrityValidator.process` over the remaining transactions,
threading the deduplicator state and the result under construction.  A
corrupted transaction is appended to `corrupted` (and its errors to
`validation_errors`); in strict mode the loop then raises `IntegrityError`,
discarding the partial result but keeping the deduplicator state reached so
far; in non-strict mode a Corrupted conflict is appended and the loop
`continue`s — skipping the `all_hashes` insertion at the bottom of the loop
body.  A valid transaction is classified against the deduplicator's seen set,
and its hash is then added to `all_hashes` on both branches. -/
def IntegrityValidator.processLoop (sha : String → String)
    (validator : TransactionValidator) (strict : Bool)
    (hash_fields : Option (List String)) (source : Option String) :
    Deduplicator → IntegrityResult → List Record →
    Deduplicator × Except IntegrityError IntegrityResult
  | dd, result, [] => (dd, Except.ok result)
  | dd, result, tx :: rest =>
    let validation := validator.validateRecord sha tx none
    if validation.is_valid then
      let hash_value := compute_transaction_hash sha tx hash_fields
      if hash_value ∈ dd.seen_hashes then
        IntegrityValidator.processLoop sha validator strict hash_fields source
          (dd.log_conflict tx hash_value ConflictType.DUPLICATE source)
          { result with duplicates := result.duplicates ++ [tx]
                        all_hashes := setAdd result.all_hashes hash_value }
          rest
      else
        IntegrityValidator.processLoop sha validator strict hash_fields source
          { dd with seen_hashes := dd.seen_hashes ++ [hash_value] }
          { result with valid := result.valid ++ [tx]
                        all_hashes := setAdd result.all_hashes hash_value }
          rest
    else
      let result := { result with
        corrupted := result.corrupted ++ [tx]
        validation_errors := result.validation_errors ++ validation.errors }
      if strict then
        (dd, Except.error
          { message := "Corrupted transaction detected: " ++
              firstErrorMessage validation.errors })
      else
        let hash_value := compute_transaction_hash sha tx hash_fields
        IntegrityValidator.processLoop sha validator strict hash_fields source
          dd
          { result with conflicts := result.conflicts ++
              [mkCorruptedConflict validation hash_value source] }
          rest

/-- The `IntegrityValidator.process(transactions, source=None)`: run the loop from
a fresh `IntegrityResult` and this validator's current deduplicator state,
returning the mutated validator alongside either the result or the raised
`IntegrityError`. -/
def IntegrityValidator.process (sha : String → String) (v : IntegrityValidator)
    (transactions : List Record) (source : Option String) :
    IntegrityValidator × Except IntegrityError IntegrityResult :=
  let r := IntegrityValidator.processLoop sha v.validator v.strict v.hash_fields
    source v.dedup {} transactions
  ({ v with dedup := r.1 }, r.2)

/-- The `IntegrityValidator.verify_integrity(transactions)`: true iff `process`
returns a result with no corrupted and no duplicate transactions (in strict
mode a raised IntegrityError propagates, modelled as `Except.error`). -/
def IntegrityValidator.verify_integrity (sha : String → String)
    (v : IntegrityValidator) (transactions : List Record) :
    IntegrityValidator × Except IntegrityError Bool :=
  let r := v.process sha transactions none
  (r.1,
   match r.2 with
   | Except.error e => Except.error e
   | Except.ok res => Except.ok (res.is_valid && !res.has_duplicates))

/-! ## Lookup lemmas for association-list dicts -/

/-- The `get?` misses exactly when no pair carries the key. -/
lemma Record.get?_eq_none_iff (tx : Record) (k : String) :
    tx.get? k = none ↔ ∀ p ∈ tx, p.1 ≠ k := by
  simp [Record.get?, List.find?_eq_none]

/-- A hit of `get?` comes from a pair of the list. -/
lemma Record.mem_of_get?_eq_some {tx : Record} {k : String} {v : PyVal}
    (h : tx.get? k = some v) : (k, v) ∈ tx := by
  simp only [Record.get?, Option.map_eq_some'] at h
  obtain ⟨p, hp, hv⟩ := h
  have hk : p.1 = k := by
    have := List.find?_some hp
    simpa using this
  have hmem : p ∈ tx := List.mem_of_find?_eq_some hp
  have : p = (k, v) := by
    cases p
    simp_all
  rwa [this] at hmem

/-- With duplicate-free keys, any pair of the list is returned by `get?`. -/
lemma Record.get?_eq_some_of_mem :
    ∀ {tx : Record} {k : String} {v : PyVal},
      (tx.map Prod.fst).Nodup → (k, v) ∈ tx → tx.get? k = some v := by
  intro tx
  induction tx with
  | nil => intro k v _ h; cases h
  | cons p t ih =>
      intro k v nd hmem
      have nd2 : p.1 ∉ t.map Prod.fst ∧ (t.map Prod.fst).Nodup := by
        rw [List.map_cons, List.nodup_cons] at nd
        exact nd
      rcases List.mem_cons.mp hmem with h | h
      · subst h
        simp [Record.get?, List.find?]
      · have hkt : k ∈ t.map Prod.fst := by
          exact List.mem_map.mpr ⟨(k, v), h, rfl⟩
        have hne : p.1 ≠ k := by
          intro hkeq
          exact nd2.1 (hkeq ▸ hkt)
        have := ih nd2.2 h
        simpa [Record.get?, List.find?, hne] using this

/-- Permuting a duplicate-free-keyed dict does not change any lookup. -/
lemma Record.get?_perm {l1 l2 : Record} (h : l1.Perm l2)
    (nd : (l1.map Prod.fst).Nodup) (k : String) : l1.get? k = l2.get? k := by
  cases e : l1.get? k with
  | none =>
      symm
      rw [Record.get?_eq_none_iff] at e ⊢
      exact fun p hp => e p (h.symm.subset hp)
  | some v =>
      have hmem : (k, v) ∈ l2 := h.subset (Record.mem_of_get?_eq_some e)
      have nd2 : (l2.map Prod.fst).Nodup := ((h.map Prod.fst).nodup_iff).mp nd
      exact (Record.get?_eq_some_of_mem nd2 hmem).symm

/-- The `hash_data` dict depends only on the lookups of the projected fields. -/
lemma foldl_hashData_congr (r1 r2 : Record) :
    ∀ (fields : List String) (acc : Record),
      (∀ f ∈ fields, r1.get? f = r2.get? f) →
      fields.foldl
          (fun d f => match r1.get? f with | some v => d.dictSet f v | none => d) acc
        = fields.foldl
          (fun d f => match r2.get? f with | some v => d.dictSet f v | none => d) acc
  | [], _, _ => rfl
  | f :: fs, acc, h => by
      simp only [List.foldl_cons]
      rw [h f (List.mem_cons_self f fs)]
      exact foldl_hashData_congr r1 r2 fs _ (fun g hg => h g (List.mem_cons_of_mem f hg))

lemma buildHashData_congr {r1 r2 : Record} {fields : List String}
    (h : ∀ f ∈ fields, r1.get? f = r2.get? f) :
    buildHashData r1 fields = buildHashData r2 fields :=
  foldl_hashData_congr r1 r2 fields [] h

/-- C5: for every digest function, every hash field set F (explicit or
defaulted), and every two records agreeing on the lookup of every field of F
— with arbitrary differences outside F — the computed fingerprints coincide;
and the fingerprint of a record with duplicate-free keys is invariant under
reordering its key-value pairs. -/
theorem C5_fingerprint_field_extensional (sha : String → String) (r1 r2 : Record) :
    (∀ fields : Option (List String),
      (∀ f ∈ fields.getD DEFAULT_HASH_FIELDS, r1.get? f = r2.get? f) →
      compute_transaction_hash sha r1 fields = compute_transaction_hash sha r2 fields)
    ∧
    (∀ fields : Option (List String),
      r1.Perm r2 → (r1.map Prod.fst).Nodup →
      compute_transaction_hash sha r1 fields = compute_transaction_hash sha r2 fields) := by
  constructor
  · intro fields h
    unfold compute_transaction_hash
    rw [buildHashData_congr h]
  · intro fields hperm hnd
    unfold compute_transaction_hash
    rw [buildHashData_congr (fun f _ => Record.get?_perm hperm hnd f)]

/-- Witness for C5 at spec Scenario 1: the hash of
`{"id": "1", "payload": "test", "timestamp": "2024-01-01"}` equals the hash of
the same dict with its keys reordered, and equals the hash of a record that
additionally differs in a field outside the hash field set. -/
theorem C5_witness :
    (compute_transaction_hash idDigest
        [("id", PyVal.str "1"), ("payload", PyVal.str "test"),
         ("timestamp", PyVal.str "2024-01-01")] none
      = compute_transaction_hash idDigest
        [("timestamp", PyVal.str "2024-01-01"), ("id", PyVal.str "1"),
         ("payload", PyVal.str "test")] none)
    ∧
    (compute_transaction_hash idDigest
        [("id", PyVal.str "1"), ("payload", PyVal.str "test"),
         ("timestamp", PyVal.str "2024-01-01")] none
      = compute_transaction_hash idDigest
        [("id", PyVal.str "1"), ("payload", PyVal.str "test"),
         ("timestamp", PyVal.str "2024-01-01"), ("extra", PyVal.int 7)] none) :=
  ⟨(C5_fingerprint_field_extensional idDigest _ _).2 none (by decide) (by decide),
   (C5_fingerprint_field_extensional idDigest _ _).1 none (by decide)⟩

/-- C4 (code bug): `TransactionValidator.validate` on the string
`"not a dict"` — the very input of `test_malformed_structure` — raises
`AttributeError` at its first statement `transaction.get("id")` instead of
returning a `ValidationResult` carrying a MalformedStructure error: the
`isinstance(transaction, dict)` check is unreachable for built-in non-dict
inputs. -/
theorem C4_nondict_validate_raises :
    TransactionValidator.validate idDigest
        (TransactionValidator.init none [] none) (PyObj.str "not a dict") none
      = Except.error (PyErr.attributeError "str" "get")
    ∧ TransactionValidator.validate idDigest
        (TransactionValidator.init none [] none) (PyObj.list []) none
      = Except.error (PyErr.attributeError "list" "get") := by
  exact ⟨rfl, rfl⟩

/-- Membership in a Python-set insertion. -/
lemma mem_setAdd (s : List String) (h x : String) :
    x ∈ setAdd s h ↔ x ∈ s ∨ x = h := by
  unfold setAdd
  by_cases hm : h ∈ s
  · rw [if_pos hm]
    constructor
    · exact Or.inl
    · rintro (hx | rfl)
      · exact hx
      · exact hm
  · rw [if_neg hm]
    simp

/-- C6: `Deduplicator.add` returns `True` exactly when the record's
fingerprint is fresh; on a hit it leaves the seen set unchanged and appends
one Duplicate ConflictRecord exactly when conflict tracking is on; on a miss
it inserts the fingerprint and appends no conflict. -/
theorem C6_add_contract (sha : String → String) (dd : Deduplicator)
    (tx : Record) (source : Option String) :
    ((dd.add sha tx source).2 = true ↔
      compute_transaction_hash sha tx dd.hash_fields ∉ dd.seen_hashes)
    ∧ (compute_transaction_hash sha tx dd.hash_fields ∈ dd.seen_hashes →
        (dd.add sha tx source).1.seen_hashes = dd.seen_hashes ∧
        (dd.add sha tx source).1.conflicts = dd.conflicts ++
          (if dd.track_conflicts then
            [mkLogConflict tx (compute_transaction_hash sha tx dd.hash_fields)
              ConflictType.DUPLICATE source]
           else []))
    ∧ (compute_transaction_hash sha tx dd.hash_fields ∉ dd.seen_hashes →
        (dd.add sha tx source).1.seen_hashes =
          dd.seen_hashes ++ [compute_transaction_hash sha tx dd.hash_fields] ∧
        (dd.add sha tx source).1.conflicts = dd.conflicts) := by
  unfold Deduplicator.add Deduplicator.log_conflict
  by_cases hmem : compute_transaction_hash sha tx dd.hash_fields ∈ dd.seen_hashes
  · rw [if_pos hmem]
    by_cases ht : dd.track_conflicts
    · exact ⟨by simp [hmem], fun _ => ⟨by simp [ht], by simp [ht]⟩,
        fun hc => absurd hmem hc⟩
    · exact ⟨by simp [hmem], fun _ => ⟨by simp [ht], by simp [ht]⟩,
        fun hc => absurd hmem hc⟩
  · rw [if_neg hmem]
    exact ⟨by simp [hmem], fun hc => absurd hc hmem, fun _ => ⟨rfl, rfl⟩⟩

/-- Witness for C6 at spec Scenario 2: a fresh deduplicator accepts
`{"id": "1"}`, rejects the identical record on the second `add`, and has
logged exactly one Duplicate conflict. -/
theorem C6_witness :
    ((Deduplicator.init none true).add idDigest [("id", PyVal.str "1")] none).2 = true
    ∧ ((((Deduplicator.init none true).add idDigest [("id", PyVal.str "1")] none).1).add
        idDigest [("id", PyVal.str "1")] none).2 = false
    ∧ (((((Deduplicator.init none true).add idDigest [("id", PyVal.str "1")] none).1).add
        idDigest [("id", PyVal.str "1")] none).1.conflicts.map
          (fun c => c.conflict_type)) = [ConflictType.DUPLICATE] := by
  have d0 : Deduplicator := Deduplicator.init none true
  refine ⟨?_, ?_, ?_⟩
  · exact ((C6_add_contract idDigest (Deduplicator.init none true)
      [("id", PyVal.str "1")] none).1).mpr (by decide)
  · have h2 := ((C6_add_contract idDigest
      (((Deduplicator.init none true).add idDigest [("id", PyVal.str "1")] none).1)
      [("id", PyVal.str "1")] none).1)
    have hmem : compute_transaction_hash idDigest [("id", PyVal.str "1")]
        (((Deduplicator.init none true).add idDigest [("id", PyVal.str "1")] none).1).hash_fields
        ∈ (((Deduplicator.init none true).add idDigest
            [("id", PyVal.str "1")] none).1).seen_hashes := by decide
    cases hb : ((((Deduplicator.init none true).add idDigest
        [("id", PyVal.str "1")] none).1).add idDigest [("id", PyVal.str "1")] none).2
    · rfl
    · exact absurd hmem (h2.mp hb)
  · have h3 := ((C6_add_contract idDigest
      (((Deduplicator.init none true).add idDigest [("id", PyVal.str "1")] none).1)
      [("id", PyVal.str "1")] none).2.1) (by decide)
    rw [h3.2]
    decide

/-- C8: `Deduplicator.check` returns true exactly when the record's
fingerprint is in the seen set, and leaves the whole deduplicator state — in
particular the seen-fingerprint set and the conflict log — unchanged. -/
theorem C8_check_pure_membership (sha : String → String) (dd : Deduplicator)
    (tx : Record) :
    ((dd.check sha tx).1 = dd)
    ∧ ((dd.check sha tx).2 = true ↔
        compute_transaction_hash sha tx dd.hash_fields ∈ dd.seen_hashes)
    ∧ (dd.check sha tx).1.seen_hashes = dd.seen_hashes
    ∧ (dd.check sha tx).1.conflicts = dd.conflicts := by
  refine ⟨rfl, ?_, rfl, rfl⟩
  simp [Deduplicator.check]

/-- The `_log_conflict` touches only the conflict log. -/
lemma Deduplicator.log_conflict_seen (dd : Deduplicator) (tx : Record)
    (h ct : String) (src : Option String) :
    (dd.log_conflict tx h ct src).seen_hashes = dd.seen_hashes := by
  unfold Deduplicator.log_conflict
  by_cases ht : dd.track_conflicts <;> simp [ht]

lemma Deduplicator.log_conflict_hash_fields (dd : Deduplicator) (tx : Record)
    (h ct : String) (src : Option String) :
    (dd.log_conflict tx h ct src).hash_fields = dd.hash_fields := by
  unfold Deduplicator.log_conflict
  by_cases ht : dd.track_conflicts <;> simp [ht]

lemma Deduplicator.log_conflict_track (dd : Deduplicator) (tx : Record)
    (h ct : String) (src : Option String) :
    (dd.log_conflict tx h ct src).track_conflicts = dd.track_conflicts := by
  unfold Deduplicator.log_conflict
  by_cases ht : dd.track_conflicts <;> simp [ht]

/-- The `_log_conflict` appends the built ConflictRecord exactly when tracking. -/
lemma Deduplicator.log_conflict_conflicts (dd : Deduplicator) (tx : Record)
    (h ct : String) (src : Option String) :
    (dd.log_conflict tx h ct src).conflicts =
      dd.conflicts ++
        (if dd.track_conflicts then [mkLogConflict tx h ct src] else []) := by
  unfold Deduplicator.log_conflict
  by_cases ht : dd.track_conflicts <;> simp [ht]

/-- Master description of the non-strict `IntegrityValidator.process` loop:
it always returns a result; the three partition lists and the two conflict
logs only grow by suffixes whose lengths and kinds are as the code dictates;
`all_hashes` gains exactly the fingerprints of the newly valid and newly
duplicate records (corrupted records contribute nothing); and the seen set
gains exactly the fingerprints of the newly valid records. -/
lemma processLoop_ns_spec (sha : String → String) (validator : TransactionValidator)
    (hf : Option (List String)) (source : Option String) :
    ∀ (txs : List Record) (dd : Deduplicator) (acc : IntegrityResult),
      ∃ dd2 res Δv Δd Δc Δcf Δdc,
        IntegrityValidator.processLoop sha validator false hf source dd acc txs
          = (dd2, Except.ok res) ∧
        res.valid = acc.valid ++ Δv ∧
        res.duplicates = acc.duplicates ++ Δd ∧
        res.corrupted = acc.corrupted ++ Δc ∧
        Δv.length + Δd.length + Δc.length = txs.length ∧
        (∀ h, h ∈ res.all_hashes ↔ h ∈ acc.all_hashes ∨
          (∃ tx ∈ Δv, compute_transaction_hash sha tx hf = h) ∨
          (∃ tx ∈ Δd, compute_transaction_hash sha tx hf = h)) ∧
        res.conflicts = acc.conflicts ++ Δcf ∧
        (∀ c ∈ Δcf, c.conflict_type = ConflictType.CORRUPTED) ∧
        Δcf.length = Δc.length ∧
        dd2.conflicts = dd.conflicts ++ Δdc ∧
        (∀ c ∈ Δdc, c.conflict_type = ConflictType.DUPLICATE) ∧
        (∀ h, h ∈ dd2.seen_hashes ↔ h ∈ dd.seen_hashes ∨
          ∃ tx ∈ Δv, compute_transaction_hash sha tx hf = h) ∧
        dd2.hash_fields = dd.hash_fields ∧
        dd2.track_conflicts = dd.track_conflicts := by
  intro txs
  induction txs with
  | nil =>
      intro dd acc
      exact ⟨dd, acc, [], [], [], [], [], rfl, by simp, by simp, by simp, rfl,
        by simp, by simp, by simp, rfl, by simp, by simp, by simp, rfl, rfl⟩
  | cons tx rest ih =>
      intro dd acc
      by_cases hv : (validator.validateRecord sha tx none).is_valid = true
      · by_cases hmem : compute_transaction_hash sha tx hf ∈ dd.seen_hashes
        · -- duplicate branch
          obtain ⟨dd2, res, Δv, Δd, Δc, Δcf, Δdc, h1, h2, h3, h4, h5, h6, h7,
            h8, h9, h10, h11, h12, h13, h14⟩ :=
            ih (dd.log_conflict tx (compute_transaction_hash sha tx hf)
                  ConflictType.DUPLICATE source)
               { acc with duplicates := acc.duplicates ++ [tx],
                          all_hashes := setAdd acc.all_hashes
                            (compute_transaction_hash sha tx hf) }
          refine ⟨dd2, res, Δv, tx :: Δd, Δc, Δcf,
            (if dd.track_conflicts then
              [mkLogConflict tx (compute_transaction_hash sha tx hf)
                ConflictType.DUPLICATE source] else []) ++ Δdc,
            ?_, ?_, ?_, ?_, ?_, ?_, ?_, ?_, ?_, ?_, ?_, ?_, ?_, ?_⟩
          · simp only [IntegrityValidator.processLoop]
            rw [if_pos hv, if_pos hmem]
            exact h1
          · simpa using h2
          · rw [h3]; simp
          · simpa using h4
          · simp only [List.length_cons]; omega
          · intro h
            rw [h6 h]
            simp only [IntegrityResult.all_hashes] at *
            rw [mem_setAdd]
            constructor
            · rintro ((hx | rfl) | hx | ⟨t, ht, rfl⟩)
              · exact Or.inl hx
              · exact Or.inr (Or.inr ⟨tx, List.mem_cons_self _ _, rfl⟩)
              · exact Or.inr (Or.inl hx)
              · exact Or.inr (Or.inr ⟨t, List.mem_cons_of_mem _ ht, rfl⟩)
            · rintro (hx | hx | ⟨t, ht, rfl⟩)
              · exact Or.inl (Or.inl hx)
              · exact Or.inr (Or.inl hx)
              · rcases List.mem_cons.mp ht with rfl | ht
                · exact Or.inl (Or.inr rfl)
                · exact Or.inr (Or.inr ⟨t, ht, rfl⟩)
          · simpa using h7
          · exact h8
          · exact h9
          · rw [h10, Deduplicator.log_conflict_conflicts]
            simp
          · intro c hc
            rcases List.mem_append.mp hc with hc | hc
            · by_cases ht : dd.track_conflicts
              · rw [if_pos ht] at hc
                rcases List.mem_singleton.mp hc with rfl
                rfl
              · rw [if_neg ht] at hc
                cases hc
            · exact h11 c hc
          · intro h
            rw [h12 h, Deduplicator.log_conflict_seen]
          · rw [h13, Deduplicator.log_conflict_hash_fields]
          · rw [h14, Deduplicator.log_conflict_track]
        · -- fresh (valid) branch
          obtain ⟨dd2, res, Δv, Δd, Δc, Δcf, Δdc, h1, h2, h3, h4, h5, h6, h7,
            h8, h9, h10, h11, h12, h13, h14⟩ :=
            ih { dd with seen_hashes :=
                   dd.seen_hashes ++ [compute_transaction_hash sha tx hf] }
               { acc with valid := acc.valid ++ [tx],
                          all_hashes := setAdd acc.all_hashes
                            (compute_transaction_hash sha tx hf) }
          refine ⟨dd2, res, tx :: Δv, Δd, Δc, Δcf, Δdc,
            ?_, ?_, ?_, ?_, ?_, ?_, ?_, ?_, ?_, ?_, ?_, ?_, ?_, ?_⟩
          · simp only [IntegrityValidator.processLoop]
            rw [if_pos hv, if_neg hmem]
            exact h1
          · rw [h2]; simp
          · simpa using h3
          · simpa using h4
          · simp only [List.length_cons]; omega
          · intro h
            rw [h6 h]
            simp only at *
            rw [mem_setAdd]
            constructor
            · rintro ((hx | rfl) | ⟨t, ht, rfl⟩ | hx)
              · exact Or.inl hx
              · exact Or.inr (Or.inl ⟨tx, List.mem_cons_self _ _, rfl⟩)
              · exact Or.inr (Or.inl ⟨t, List.mem_cons_of_mem _ ht, rfl⟩)
              · exact Or.inr (Or.inr hx)
            · rintro (hx | ⟨t, ht, rfl⟩ | hx)
              · exact Or.inl (Or.inl hx)
              · rcases List.mem_cons.mp ht with rfl | ht
                · exact Or.inl (Or.inr rfl)
                · exact Or.inr (Or.inl ⟨t, ht, rfl⟩)
              · exact Or.inr (Or.inr hx)
          · simpa using h7
          · exact h8
          · exact h9
          · simpa using h10
          · exact h11
          · intro h
            rw [h12 h]
            simp only [List.mem_append, List.mem_singleton]
            constructor
            · rintro ((hx | rfl) | ⟨t, ht, rfl⟩)
              · exact Or.inl hx
              · exact Or.inr ⟨tx, List.mem_cons_self _ _, rfl⟩
              · exact Or.inr ⟨t, List.mem_cons_of_mem _ ht, rfl⟩
            · rintro (hx | ⟨t, ht, rfl⟩)
              · exact Or.inl (Or.inl hx)
              · rcases List.mem_cons.mp ht with rfl | ht
                · exact Or.inl (Or.inr rfl)
                · exact Or.inr ⟨t, ht, rfl⟩
          · simpa using h13
          · simpa using h14
      · -- corrupted branch (non-strict)
        obtain ⟨dd2, res, Δv, Δd, Δc, Δcf, Δdc, h1, h2, h3, h4, h5, h6, h7,
          h8, h9, h10, h11, h12, h13, h14⟩ :=
          ih dd
             { acc with
                corrupted := acc.corrupted ++ [tx],
                validation_errors := acc.validation_errors ++
                  (validator.validateRecord sha tx none).errors,
                conflicts := acc.conflicts ++
                  [mkCorruptedConflict (validator.validateRecord sha tx none)
                    (compute_transaction_hash sha tx hf) source] }
        refine ⟨dd2, res, Δv, Δd, tx :: Δc,
          mkCorruptedConflict (validator.validateRecord sha tx none)
            (compute_transaction_hash sha tx hf) source :: Δcf, Δdc,
          ?_, ?_, ?_, ?_, ?_, ?_, ?_, ?_, ?_, ?_, ?_, ?_, ?_, ?_⟩
        · simp only [IntegrityValidator.processLoop]
          rw [if_neg hv]
          simp only [if_neg (Bool.false_ne_true), reduceIte]
          exact h1
        · simpa using h2
        · simpa using h3
        · rw [h4]; simp
        · simp only [List.length_cons]; omega
        · intro h
          rw [h6 h]
        · rw [h7]; simp
        · intro c hc
          rcases List.mem_cons.mp hc with rfl | hc
          · rfl
          · exact h8 c hc
        · simp only [List.length_cons]; omega
        · exact h10
        · exact h11
        · exact h12
        · exact h13
        · exact h14

/-- C1 counterexample: non-strict `process` on the batch `[{}]` (whose only
record is corrupted: required field `id` missing) returns a result whose
`corrupted` list holds that record but whose `all_hashes` set is empty — yet
the record's fingerprint exists (it is the digest of `"{}"`), so the
fingerprint of a corrupted record is not a member of `all_hashes`: the
corrupted branch `continue`s before the `all_hashes` insertion. -/
theorem C1_counterexample :
    ((((IntegrityValidator.init none [] none false).process idDigest
        [([] : Record)] none).2.toOption).map
      (fun r => (r.corrupted, r.all_hashes))) = some ([([] : Record)], [])
    ∧ compute_transaction_hash idDigest ([] : Record) none = "\x7b\x7d" := by
  exact ⟨rfl, rfl⟩

/-- C1 amended: in non-strict mode `all_hashes` contains exactly the
fingerprints of the records classified valid or duplicate; a corrupted
record's fingerprint is never added by its own branch. -/
theorem C1_amended_all_hashes (sha : String → String) (dd : Deduplicator)
    (validator : TransactionValidator) (hf : Option (List String))
    (source : Option String) (txs : List Record) :
    ∃ res, ((⟨dd, validator, false, hf⟩ : IntegrityValidator).process sha txs
        source).2 = Except.ok res ∧
      ∀ h, h ∈ res.all_hashes ↔
        (∃ tx ∈ res.valid, compute_transaction_hash sha tx hf = h) ∨
        (∃ tx ∈ res.duplicates, compute_transaction_hash sha tx hf = h) := by
  obtain ⟨dd2, res, Δv, Δd, Δc, Δcf, Δdc, h1, h2, h3, h4, h5, h6, h7, h8, h9,
    h10, h11, h12, h13, h14⟩ := processLoop_ns_spec sha validator hf source txs dd {}
  refine ⟨res, ?_, ?_⟩
  · simp only [IntegrityValidator.process, h1]
  · intro h
    rw [h6 h]
    simp only [IntegrityResult.valid] at h2 h3
    have hv : res.valid = Δv := by simpa using h2
    have hd : res.duplicates = Δd := by simpa using h3
    rw [hv, hd]
    simp

/-- C2: every batch processed in non-strict mode yields a result whose three
partition lists have lengths summing to the batch length. -/
theorem C2_partition_complete (sha : String → String) (dd : Deduplicator)
    (validator : TransactionValidator) (hf : Option (List String))
    (source : Option String) (txs : List Record) :
    ∃ res, ((⟨dd, validator, false, hf⟩ : IntegrityValidator).process sha txs
        source).2 = Except.ok res ∧
      res.valid.length + res.duplicates.length + res.corrupted.length
        = txs.length := by
  obtain ⟨dd2, res, Δv, Δd, Δc, Δcf, Δdc, h1, h2, h3, h4, h5, h6, h7, h8, h9,
    h10, h11, h12, h13, h14⟩ := processLoop_ns_spec sha validator hf source txs dd {}
  refine ⟨res, ?_, ?_⟩
  · simp only [IntegrityValidator.process, h1]
  · have hv : res.valid = Δv := by simpa using h2
    have hd : res.duplicates = Δd := by simpa using h3
    have hc : res.corrupted = Δc := by simpa using h4
    rw [hv, hd, hc]
    exact h5

/-- C10: in non-strict mode the returned result's `conflicts` list holds only
Corrupted conflict records, one per corrupted record; the deduplicator's log
grows only by Duplicate conflict records, and the validator's `conflicts`
property exposes exactly that internal log. -/
theorem C10_conflict_separation (sha : String → String) (dd : Deduplicator)
    (validator : TransactionValidator) (hf : Option (List String))
    (source : Option String) (txs : List Record) :
    ∃ res, ((⟨dd, validator, false, hf⟩ : IntegrityValidator).process sha txs
        source).2 = Except.ok res ∧
      (∀ c ∈ res.conflicts, c.conflict_type = ConflictType.CORRUPTED) ∧
      res.conflicts.length = res.corrupted.length ∧
      (∃ Δdc, ((⟨dd, validator, false, hf⟩ : IntegrityValidator).process sha txs
          source).1.dedup.conflicts = dd.conflicts ++ Δdc ∧
        ∀ c ∈ Δdc, c.conflict_type = ConflictType.DUPLICATE) ∧
      ((⟨dd, validator, false, hf⟩ : IntegrityValidator).process sha txs
          source).1.conflicts
        = ((⟨dd, validator, false, hf⟩ : IntegrityValidator).process sha txs
          source).1.dedup.conflicts := by
  obtain ⟨dd2, res, Δv, Δd, Δc, Δcf, Δdc, h1, h2, h3, h4, h5, h6, h7, h8, h9,
    h10, h11, h12, h13, h14⟩ := processLoop_ns_spec sha validator hf source txs dd {}
  have hcf : res.conflicts = Δcf := by simpa using h7
  have hc : res.corrupted = Δc := by simpa using h4
  refine ⟨res, ?_, ?_, ?_, ⟨Δdc, ?_, h11⟩, rfl⟩
  · simp only [IntegrityValidator.process, h1]
  · rw [hcf]; exact h8
  · rw [hcf, hc]; exact h9
  · simp only [IntegrityValidator.process, h1]
    exact h10

/-- If the loop finishes a prefix without raising, processing the
concatenation continues from the reached state. -/
lemma processLoop_append (sha : String → String) (validator : TransactionValidator)
    (strict : Bool) (hf : Option (List String)) (source : Option String) :
    ∀ (p q : List Record) (dd : Deduplicator) (acc : IntegrityResult)
      (dd1 : Deduplicator) (res1 : IntegrityResult),
      IntegrityValidator.processLoop sha validator strict hf source dd acc p
        = (dd1, Except.ok res1) →
      IntegrityValidator.processLoop sha validator strict hf source dd acc (p ++ q)
        = IntegrityValidator.processLoop sha validator strict hf source dd1 res1 q
  | [], q, dd, acc, dd1, res1 => by
      intro h
      simp only [IntegrityValidator.processLoop, Prod.mk.injEq,
        Except.ok.injEq] at h
      obtain ⟨rfl, rfl⟩ := h
      rfl
  | tx :: p, q, dd, acc, dd1, res1 => by
      intro h
      simp only [IntegrityValidator.processLoop] at h ⊢
      by_cases hv : (validator.validateRecord sha tx none).is_valid = true
      · rw [if_pos hv] at h ⊢
        by_cases hmem : compute_transaction_hash sha tx hf ∈ dd.seen_hashes
        · rw [if_pos hmem] at h ⊢
          exact processLoop_append sha validator strict hf source p q _ _ _ _ h
        · rw [if_neg hmem] at h ⊢
          exact processLoop_append sha validator strict hf source p q _ _ _ _ h
      · rw [if_neg hv] at h ⊢
        by_cases hs : strict = true
        · rw [if_pos hs] at h
          simp at h
        · rw [if_neg hs] at h ⊢
          exact processLoop_append sha validator strict hf source p q _ _ _ _ h

/-- In strict mode, the loop raises at a corrupted head: it returns the
deduplicator state unchanged and the `IntegrityError` built from the first
validation error of that record, regardless of what follows. -/
lemma processLoop_strict_bad (sha : String → String)
    (validator : TransactionValidator) (hf : Option (List String))
    (source : Option String) (dd : Deduplicator) (acc : IntegrityResult)
    (tx : Record) (rest : List Record)
    (hbad : (validator.validateRecord sha tx none).is_valid = false) :
    IntegrityValidator.processLoop sha validator true hf source dd acc (tx :: rest)
      = (dd, Except.error
          { message := "Corrupted transaction detected: " ++
              firstErrorMessage (validator.validateRecord sha tx none).errors }) := by
  simp only [IntegrityValidator.processLoop]
  rw [if_neg (by simp [hbad])]
  simp

/-- Processing a prefix of records that all pass validation never raises (in
any mode), and the seen set afterwards holds exactly the prior fingerprints
plus the fingerprints of the prefix records. -/
lemma processLoop_valid_prefix (sha : String → String)
    (validator : TransactionValidator) (strict : Bool)
    (hf : Option (List String)) (source : Option String) :
    ∀ (pre : List Record),
      (∀ tx ∈ pre, (validator.validateRecord sha tx none).is_valid = true) →
      ∀ (dd : Deduplicator) (acc : IntegrityResult),
        ∃ dd1 res1,
          IntegrityValidator.processLoop sha validator strict hf source dd acc pre
            = (dd1, Except.ok res1) ∧
          (∀ h, h ∈ dd1.seen_hashes ↔ h ∈ dd.seen_hashes ∨
            ∃ tx ∈ pre, compute_transaction_hash sha tx hf = h)
  | [], _, dd, acc => ⟨dd, acc, rfl, by simp⟩
  | tx :: pre, hval, dd, acc => by
      have hv : (validator.validateRecord sha tx none).is_valid = true :=
        hval tx (List.mem_cons_self _ _)
      have hvp : ∀ t ∈ pre, (validator.validateRecord sha t none).is_valid = true :=
        fun t ht => hval t (List.mem_cons_of_mem _ ht)
      by_cases hmem : compute_transaction_hash sha tx hf ∈ dd.seen_hashes
      · obtain ⟨dd1, res1, hEq, hSeen⟩ :=
          processLoop_valid_prefix sha validator strict hf source pre hvp
            (dd.log_conflict tx (compute_transaction_hash sha tx hf)
              ConflictType.DUPLICATE source)
            { acc with duplicates := acc.duplicates ++ [tx],
                       all_hashes := setAdd acc.all_hashes
                         (compute_transaction_hash sha tx hf) }
        refine ⟨dd1, res1, ?_, ?_⟩
        · simp only [IntegrityValidator.processLoop]
          rw [if_pos hv, if_pos hmem]
          exact hEq
        · intro h
          rw [hSeen h, Deduplicator.log_conflict_seen]
          constructor
          · rintro (hx | ⟨t, ht, rfl⟩)
            · exact Or.inl hx
            · exact Or.inr ⟨t, List.mem_cons_of_mem _ ht, rfl⟩
          · rintro (hx | ⟨t, ht, rfl⟩)
            · exact Or.inl hx
            · rcases List.mem_cons.mp ht with rfl | ht
              · exact Or.inl hmem
              · exact Or.inr ⟨t, ht, rfl⟩
      · obtain ⟨dd1, res1, hEq, hSeen⟩ :=
          processLoop_valid_prefix sha validator strict hf source pre hvp
            { dd with seen_hashes :=
                dd.seen_hashes ++ [compute_transaction_hash sha tx hf] }
            { acc with valid := acc.valid ++ [tx],
                       all_hashes := setAdd acc.all_hashes
                         (compute_transaction_hash sha tx hf) }
        refine ⟨dd1, res1, ?_, ?_⟩
        · simp only [IntegrityValidator.processLoop]
          rw [if_pos hv, if_neg hmem]
          exact hEq
        · intro h
          rw [hSeen h]
          simp only [List.mem_append, List.mem_singleton]
          constructor
          · rintro ((hx | rfl) | ⟨t, ht, rfl⟩)
            · exact Or.inl hx
            · exact Or.inr ⟨tx, List.mem_cons_self _ _, rfl⟩
            · exact Or.inr ⟨t, List.mem_cons_of_mem _ ht, rfl⟩
          · rintro (hx | ⟨t, ht, rfl⟩)
            · exact Or.inl (Or.inl hx)
            · rcases List.mem_cons.mp ht with rfl | ht
              · exact Or.inl (Or.inr rfl)
              · exact Or.inr ⟨t, ht, rfl⟩

/-- C3: on a batch whose records before position k all pass validation and
whose record at position k fails it, strict `process` signals the
`IntegrityError` built from that record's first validation error; the whole
call — returned state included — coincides with the call on the batch
truncated right after position k, so no later record is processed, and no
result is returned.  Non-strict `process` on the same batch returns a
complete result partitioning the entire batch. -/
theorem C3_strict_abort (sha : String → String) (dd : Deduplicator)
    (validator : TransactionValidator) (hf : Option (List String))
    (source : Option String) (pre : List Record) (bad : Record)
    (rest : List Record)
    (hpre : ∀ tx ∈ pre, (validator.validateRecord sha tx none).is_valid = true)
    (hbad : (validator.validateRecord sha bad none).is_valid = false) :
    ((⟨dd, validator, true, hf⟩ : IntegrityValidator).process sha
        (pre ++ bad :: rest) source).2
      = Except.error
          { message := "Corrupted transaction detected: " ++
              firstErrorMessage (validator.validateRecord sha bad none).errors }
    ∧ (⟨dd, validator, true, hf⟩ : IntegrityValidator).process sha
        (pre ++ bad :: rest) source
      = (⟨dd, validator, true, hf⟩ : IntegrityValidator).process sha
        (pre ++ [bad]) source
    ∧ ∃ res, ((⟨dd, validator, false, hf⟩ : IntegrityValidator).process sha
        (pre ++ bad :: rest) source).2 = Except.ok res ∧
        res.valid.length + res.duplicates.length + res.corrupted.length
          = (pre ++ bad :: rest).length := by
  obtain ⟨dd1, res1, hEq, _⟩ :=
    processLoop_valid_prefix sha validator true hf source pre hpre dd {}
  have hfull : IntegrityValidator.processLoop sha validator true hf source dd {}
      (pre ++ bad :: rest)
      = (dd1, Except.error
          { message := "Corrupted transaction detected: " ++
              firstErrorMessage (validator.validateRecord sha bad none).errors }) := by
    rw [processLoop_append sha validator true hf source pre (bad :: rest) dd {}
      dd1 res1 hEq]
    exact processLoop_strict_bad sha validator hf source dd1 res1 bad rest hbad
  have htrunc : IntegrityValidator.processLoop sha validator true hf source dd {}
      (pre ++ [bad])
      = (dd1, Except.error
          { message := "Corrupted transaction detected: " ++
              firstErrorMessage (validator.validateRecord sha bad none).errors }) := by
    rw [processLoop_append sha validator true hf source pre [bad] dd {}
      dd1 res1 hEq]
    exact processLoop_strict_bad sha validator hf source dd1 res1 bad [] hbad
  refine ⟨?_, ?_, ?_⟩
  · simp only [IntegrityValidator.process, hfull]
  · simp only [IntegrityValidator.process, hfull, htrunc]
  · obtain ⟨dd2, res, Δv, Δd, Δc, Δcf, Δdc, h1, h2, h3, h4, h5, h6, h7, h8,
      h9, h10, h11, h12, h13, h14⟩ :=
      processLoop_ns_spec sha validator hf source (pre ++ bad :: rest) dd {}
    refine ⟨res, ?_, ?_⟩
    · simp only [IntegrityValidator.process, h1]
    · have hv2 : res.valid = Δv := by simpa using h2
      have hd2 : res.duplicates = Δd := by simpa using h3
      have hc2 : res.corrupted = Δc := by simpa using h4
      rw [hv2, hd2, hc2]
      exact h5

/-- Witness for C3 at spec Scenario 4:
`IntegrityValidator(required_fields={"id"}, strict=True).process([{"id":"1"}, {}])`
raises IntegrityError naming the missing `id` field, behaves exactly as on
the truncated batch, and the non-strict run partitions both records. -/
theorem C3_witness :
    ((⟨Deduplicator.init none true, TransactionValidator.init (some ["id"]) [] none,
        true, none⟩ : IntegrityValidator).process idDigest
        ([[("id", PyVal.str "1")]] ++ ([] : Record) :: []) none).2
      = Except.error
          { message := "Corrupted transaction detected: " ++
              firstErrorMessage ((TransactionValidator.init (some ["id"]) [] none).validateRecord
                idDigest ([] : Record) none).errors }
    ∧ ∃ res, ((⟨Deduplicator.init none true,
        TransactionValidator.init (some ["id"]) [] none, false, none⟩ :
          IntegrityValidator).process idDigest
        ([[("id", PyVal.str "1")]] ++ ([] : Record) :: []) none).2 = Except.ok res ∧
        res.valid.length + res.duplicates.length + res.corrupted.length
          = ([[("id", PyVal.str "1")]] ++ ([] : Record) :: []).length := by
  have h := C3_strict_abort idDigest (Deduplicator.init none true)
    (TransactionValidator.init (some ["id"]) [] none) none none
    [[("id", PyVal.str "1")]] ([] : Record) []
    (by decide) (by decide)
  exact ⟨h.1, h.2.2⟩

/-- C9: when strict `process` aborts at the first corrupted record, the
deduplicator state mutated before the abort is not rolled back: the call
signals `IntegrityError`, every fingerprint already seen stays in the seen
set, and the fingerprint of every valid record processed before the abort is
a member of the seen set afterwards. -/
theorem C9_strict_abort_keeps_state (sha : String → String) (dd : Deduplicator)
    (validator : TransactionValidator) (hf : Option (List String))
    (source : Option String) (pre : List Record) (bad : Record)
    (rest : List Record)
    (hpre : ∀ tx ∈ pre, (validator.validateRecord sha tx none).is_valid = true)
    (hbad : (validator.validateRecord sha bad none).is_valid = false) :
    (∃ e, ((⟨dd, validator, true, hf⟩ : IntegrityValidator).process sha
        (pre ++ bad :: rest) source).2 = Except.error e)
    ∧ (∀ h ∈ dd.seen_hashes,
        h ∈ ((⟨dd, validator, true, hf⟩ : IntegrityValidator).process sha
          (pre ++ bad :: rest) source).1.dedup.seen_hashes)
    ∧ (∀ tx ∈ pre,
        compute_transaction_hash sha tx hf ∈
          ((⟨dd, validator, true, hf⟩ : IntegrityValidator).process sha
            (pre ++ bad :: rest) source).1.dedup.seen_hashes) := by
  obtain ⟨dd1, res1, hEq, hSeen⟩ :=
    processLoop_valid_prefix sha validator true hf source pre hpre dd {}
  have hfull : IntegrityValidator.processLoop sha validator true hf source dd {}
      (pre ++ bad :: rest)
      = (dd1, Except.error
          { message := "Corrupted transaction detected: " ++
              firstErrorMessage (validator.validateRecord sha bad none).errors }) := by
    rw [processLoop_append sha validator true hf source pre (bad :: rest) dd {}
      dd1 res1 hEq]
    exact processLoop_strict_bad sha validator hf source dd1 res1 bad rest hbad
  refine ⟨⟨{ message := "Corrupted transaction detected: " ++
      firstErrorMessage (validator.validateRecord sha bad none).errors }, ?_⟩, ?_, ?_⟩
  · simp only [IntegrityValidator.process, hfull]
  · intro h hh
    simp only [IntegrityValidator.process, hfull]
    exact (hSeen h).mpr (Or.inl hh)
  · intro tx htx
    simp only [IntegrityValidator.process, hfull]
    exact (hSeen _).mpr (Or.inr ⟨tx, htx, rfl⟩)

/-- Witness for C9: after the strict abort of Scenario 4, the fingerprint of
the valid first record `{"id": "1"}` is still in the seen set. -/
theorem C9_witness :
    (∃ e, ((⟨Deduplicator.init none true,
        TransactionValidator.init (some ["id"]) [] none, true, none⟩ :
          IntegrityValidator).process idDigest
        ([[("id", PyVal.str "1")]] ++ ([] : Record) :: []) none).2 = Except.error e)
    ∧ compute_transaction_hash idDigest [("id", PyVal.str "1")] none ∈
        ((⟨Deduplicator.init none true,
          TransactionValidator.init (some ["id"]) [] none, true, none⟩ :
            IntegrityValidator).process idDigest
          ([[("id", PyVal.str "1")]] ++ ([] : Record) :: []) none).1.dedup.seen_hashes := by
  have h := C9_strict_abort_keeps_state idDigest (Deduplicator.init none true)
    (TransactionValidator.init (some ["id"]) [] none) none none
    [[("id", PyVal.str "1")]] ([] : Record) []
    (by decide) (by decide)
  exact ⟨h.1, h.2.2 [("id", PyVal.str "1")] (List.mem_singleton.mpr rfl)⟩

/-- One deduplication step does not change the configuration fields. -/
lemma processStep_config (sha : String → String) (source : Option String)
    (st : Deduplicator × DeduplicationResult) (tx : Record) :
    (Deduplicator.processStep sha source st tx).1.hash_fields = st.1.hash_fields
    ∧ (Deduplicator.processStep sha source st tx).1.track_conflicts
        = st.1.track_conflicts := by
  unfold Deduplicator.processStep
  by_cases hmem : compute_transaction_hash sha tx st.1.hash_fields ∈ st.1.seen_hashes
  · simp [hmem, Deduplicator.log_conflict_hash_fields, Deduplicator.log_conflict_track]
  · simp [hmem]

/-- The deduplication fold does not change the configuration fields. -/
lemma dedup_fold_config (sha : String → String) (source : Option String) :
    ∀ (txs : List Record) (st : Deduplicator × DeduplicationResult),
      (txs.foldl (Deduplicator.processStep sha source) st).1.hash_fields
        = st.1.hash_fields
      ∧ (txs.foldl (Deduplicator.processStep sha source) st).1.track_conflicts
        = st.1.track_conflicts
  | [], st => ⟨rfl, rfl⟩
  | tx :: rest, st => by
      have hstep := processStep_config sha source st tx
      have hrest := dedup_fold_config sha source rest
        (Deduplicator.processStep sha source st tx)
      simp only [List.foldl_cons]
      exact ⟨hrest.1.trans hstep.1, hrest.2.trans hstep.2⟩

/-- Seen set after the deduplication fold: the prior fingerprints plus the
fingerprint of every processed record (each record's fingerprint enters the
seen set whether it was classified unique or duplicate — for a duplicate it
was already there). -/
lemma dedup_fold_seen (sha : String → String) (source : Option String) :
    ∀ (txs : List Record) (st : Deduplicator × DeduplicationResult) (h : String),
      (h ∈ (txs.foldl (Deduplicator.processStep sha source) st).1.seen_hashes ↔
        h ∈ st.1.seen_hashes ∨
        ∃ tx ∈ txs, compute_transaction_hash sha tx st.1.hash_fields = h)
  | [], st, h => by simp
  | tx :: rest, st, h => by
      simp only [List.foldl_cons]
      rw [dedup_fold_seen sha source rest (Deduplicator.processStep sha source st tx) h]
      rw [(processStep_config sha source st tx).1]
      unfold Deduplicator.processStep
      by_cases hmem : compute_transaction_hash sha tx st.1.hash_fields ∈ st.1.seen_hashes
      · simp only [hmem, if_pos, if_true, reduceIte, Deduplicator.log_conflict_seen]
        constructor
        · rintro (hx | ⟨t, ht, rfl⟩)
          · exact Or.inl hx
          · exact Or.inr ⟨t, List.mem_cons_of_mem _ ht, rfl⟩
        · rintro (hx | ⟨t, ht, rfl⟩)
          · exact Or.inl hx
          · rcases List.mem_cons.mp ht with rfl | ht
            · exact Or.inl hmem
            · exact Or.inr ⟨t, ht, rfl⟩
      · simp only [hmem, if_neg, if_false, reduceIte]
        simp only [List.mem_append, List.mem_singleton]
        constructor
        · rintro ((hx | rfl) | ⟨t, ht, rfl⟩)
          · exact Or.inl hx
          · exact Or.inr ⟨tx, List.mem_cons_self _ _, rfl⟩
          · exact Or.inr ⟨t, List.mem_cons_of_mem _ ht, rfl⟩
        · rintro (hx | ⟨t, ht, rfl⟩)
          · exact Or.inl (Or.inl hx)
          · rcases List.mem_cons.mp ht with rfl | ht
            · exact Or.inl (Or.inr rfl)
            · exact Or.inr ⟨t, ht, rfl⟩

/-- The `unique` and `duplicates` lists only grow along the fold. -/
lemma dedup_fold_suffix (sha : String → String) (source : Option String) :
    ∀ (txs : List Record) (st : Deduplicator × DeduplicationResult),
      ∃ Δu Δd,
        (txs.foldl (Deduplicator.processStep sha source) st).2.unique
          = st.2.unique ++ Δu
        ∧ (txs.foldl (Deduplicator.processStep sha source) st).2.duplicates
          = st.2.duplicates ++ Δd
  | [], st => ⟨[], [], by simp, by simp⟩
  | tx :: rest, st => by
      obtain ⟨Δu, Δd, hu, hd⟩ := dedup_fold_suffix sha source rest
        (Deduplicator.processStep sha source st tx)
      simp only [List.foldl_cons]
      unfold Deduplicator.processStep at hu hd ⊢
      by_cases hmem : compute_transaction_hash sha tx st.1.hash_fields ∈ st.1.seen_hashes
      · refine ⟨Δu, tx :: Δd, ?_, ?_⟩
        · simp only [hmem, reduceIte] at hu ⊢
          simpa using hu
        · simp only [hmem, reduceIte] at hd ⊢
          rw [hd]
          simp
      · refine ⟨tx :: Δu, Δd, ?_, ?_⟩
        · simp only [hmem, reduceIte] at hu ⊢
          rw [hu]
          simp
        · simp only [hmem, reduceIte] at hd ⊢
          simpa using hd

/-- Upper bound on the seen set of the non-strict integrity loop: it gains
only fingerprints of records that passed validation. -/
lemma processLoop_ns_seen_upper (sha : String → String)
    (validator : TransactionValidator) (hf : Option (List String))
    (source : Option String) :
    ∀ (txs : List Record) (dd : Deduplicator) (acc : IntegrityResult) (h : String),
      h ∈ (IntegrityValidator.processLoop sha validator false hf source dd acc
        txs).1.seen_hashes →
      h ∈ dd.seen_hashes ∨
        ∃ tx ∈ txs, (validator.validateRecord sha tx none).is_valid = true ∧
          compute_transaction_hash sha tx hf = h
  | [], dd, acc, h => fun hx => Or.inl hx
  | tx :: rest, dd, acc, h => by
      intro hx
      simp only [IntegrityValidator.processLoop] at hx
      by_cases hv : (validator.validateRecord sha tx none).is_valid = true
      · rw [if_pos hv] at hx
        by_cases hmem : compute_transaction_hash sha tx hf ∈ dd.seen_hashes
        · rw [if_pos hmem] at hx
          rcases processLoop_ns_seen_upper sha validator hf source rest _ _ h hx with
            hy | ⟨t, ht, hvt, rfl⟩
          · rw [Deduplicator.log_conflict_seen] at hy
            exact Or.inl hy
          · exact Or.inr ⟨t, List.mem_cons_of_mem _ ht, hvt, rfl⟩
        · rw [if_neg hmem] at hx
          rcases processLoop_ns_seen_upper sha validator hf source rest _ _ h hx with
            hy | ⟨t, ht, hvt, rfl⟩
          · rcases List.mem_append.mp hy with hy | hy
            · exact Or.inl hy
            · exact Or.inr ⟨tx, List.mem_cons_self _ _, hv,
                (List.mem_singleton.mp hy).symm⟩
          · exact Or.inr ⟨t, List.mem_cons_of_mem _ ht, hvt, rfl⟩
      · rw [if_neg hv] at hx
        rcases processLoop_ns_seen_upper sha validator hf source rest _ _ h hx with
          hy | ⟨t, ht, hvt, rfl⟩
        · exact Or.inl hy
        · exact Or.inr ⟨t, List.mem_cons_of_mem _ ht, hvt, rfl⟩

/-- Lower bound on the seen set of the non-strict integrity loop: it keeps
every prior fingerprint and gains the fingerprint of every record of the
batch that passed validation. -/
lemma processLoop_ns_seen_lower (sha : String → String)
    (validator : TransactionValidator) (hf : Option (List String))
    (source : Option String) :
    ∀ (txs : List Record) (dd : Deduplicator) (acc : IntegrityResult),
      (∀ h ∈ dd.seen_hashes,
        h ∈ (IntegrityValidator.processLoop sha validator false hf source dd acc
          txs).1.seen_hashes)
      ∧ (∀ tx ∈ txs, (validator.validateRecord sha tx none).is_valid = true →
          compute_transaction_hash sha tx hf ∈
            (IntegrityValidator.processLoop sha validator false hf source dd acc
              txs).1.seen_hashes)
  | [], dd, acc => ⟨fun _ hx => hx, fun tx ht => absurd ht (List.not_mem_nil tx)⟩
  | tx :: rest, dd, acc => by
      by_cases hv : (validator.validateRecord sha tx none).is_valid = true
      · by_cases hmem : compute_transaction_hash sha tx hf ∈ dd.seen_hashes
        · have hrec := processLoop_ns_seen_lower sha validator hf source rest
            (dd.log_conflict tx (compute_transaction_hash sha tx hf)
              ConflictType.DUPLICATE source)
            { acc with duplicates := acc.duplicates ++ [tx],
                       all_hashes := setAdd acc.all_hashes
                         (compute_transaction_hash sha tx hf) }
          have hmono : ∀ h ∈ dd.seen_hashes,
              h ∈ (IntegrityValidator.processLoop sha validator false hf source dd
                acc (tx :: rest)).1.seen_hashes := by
            intro h hh
            simp only [IntegrityValidator.processLoop]
            rw [if_pos hv, if_pos hmem]
            exact hrec.1 h (by rwa [Deduplicator.log_conflict_seen])
          refine ⟨hmono, ?_⟩
          intro t ht hvt
          rcases List.mem_cons.mp ht with rfl | ht
          · exact hmono _ hmem
          · simp only [IntegrityValidator.processLoop]
            rw [if_pos hv, if_pos hmem]
            exact hrec.2 t ht hvt
        · have hrec := processLoop_ns_seen_lower sha validator hf source rest
            { dd with seen_hashes :=
                dd.seen_hashes ++ [compute_transaction_hash sha tx hf] }
            { acc with valid := acc.valid ++ [tx],
                       all_hashes := setAdd acc.all_hashes
                         (compute_transaction_hash sha tx hf) }
          have hmono : ∀ h, h ∈ dd.seen_hashes ++ [compute_transaction_hash sha tx hf] →
              h ∈ (IntegrityValidator.processLoop sha validator false hf source dd
                acc (tx :: rest)).1.seen_hashes := by
            intro h hh
            simp only [IntegrityValidator.processLoop]
            rw [if_pos hv, if_neg hmem]
            exact hrec.1 h hh
          refine ⟨fun h hh => hmono h (List.mem_append.mpr (Or.inl hh)), ?_⟩
          intro t ht hvt
          rcases List.mem_cons.mp ht with rfl | ht
          · exact hmono _ (List.mem_append.mpr (Or.inr (List.mem_singleton.mpr rfl)))
          · simp only [IntegrityValidator.processLoop]
            rw [if_pos hv, if_neg hmem]
            exact hrec.2 t ht hvt
      · have hrec := processLoop_ns_seen_lower sha validator hf source rest dd
          { acc with
              corrupted := acc.corrupted ++ [tx],
              validation_errors := acc.validation_errors ++
                (validator.validateRecord sha tx none).errors,
              conflicts := acc.conflicts ++
                [mkCorruptedConflict (validator.validateRecord sha tx none)
                  (compute_transaction_hash sha tx hf) source] }
        have hstep : ∀ (P : Deduplicator → Prop),
            P (IntegrityValidator.processLoop sha validator false hf source dd
              { acc with
                  corrupted := acc.corrupted ++ [tx],
                  validation_errors := acc.validation_errors ++
                    (validator.validateRecord sha tx none).errors,
                  conflicts := acc.conflicts ++
                    [mkCorruptedConflict (validator.validateRecord sha tx none)
                      (compute_transaction_hash sha tx hf) source] } rest).1 →
            P (IntegrityValidator.processLoop sha validator false hf source dd acc
              (tx :: rest)).1 := by
          intro P hP
          simp only [IntegrityValidator.processLoop]
          rw [if_neg hv]
          simpa using hP
        refine ⟨fun h hh => hstep (fun d => h ∈ d.seen_hashes) (hrec.1 h hh), ?_⟩
        intro t ht hvt
        rcases List.mem_cons.mp ht with rfl | ht
        · exact absurd hvt hv
        · exact hstep (fun d => compute_transaction_hash sha t hf ∈ d.seen_hashes)
            (hrec.2 t ht hvt)

/-- One deduplication step on a fresh fingerprint appends the record to
`unique` and leaves `duplicates` unchanged. -/
lemma processStep_fresh (sha : String → String) (source : Option String)
    (st : Deduplicator × DeduplicationResult) (tx : Record)
    (h : compute_transaction_hash sha tx st.1.hash_fields ∉ st.1.seen_hashes) :
    (Deduplicator.processStep sha source st tx).2.unique = st.2.unique ++ [tx]
    ∧ (Deduplicator.processStep sha source st tx).2.duplicates = st.2.duplicates := by
  simp only [Deduplicator.processStep]
  rw [if_neg h]
  exact ⟨rfl, rfl⟩

/-- One deduplication step on an already-seen fingerprint appends the record
to `duplicates` and leaves `unique` unchanged. -/
lemma processStep_hit (sha : String → String) (source : Option String)
    (st : Deduplicator × DeduplicationResult) (tx : Record)
    (h : compute_transaction_hash sha tx st.1.hash_fields ∈ st.1.seen_hashes) :
    (Deduplicator.processStep sha source st tx).2.duplicates = st.2.duplicates ++ [tx]
    ∧ (Deduplicator.processStep sha source st tx).2.unique = st.2.unique := by
  simp only [Deduplicator.processStep]
  rw [if_pos h]
  exact ⟨rfl, rfl⟩

/-- C7 counterexample: the batch `[{}, {}]` contains a record and an exact
duplicate of it later in the sequence, yet non-strict
`IntegrityValidator.process` (with the default required field `id`) places
neither occurrence in `valid` or `duplicates`: both records fail validation
and land in `corrupted`, so the first occurrence does not land in the valid
partition as claimed. -/
theorem C7_counterexample :
    ((((IntegrityValidator.init none [] none false).process idDigest
        [([] : Record), ([] : Record)] none).2.toOption).map
      (fun r => (r.valid, r.duplicates, r.corrupted)))
      = some ([], [], [([] : Record), ([] : Record)]) := by
  rfl

/-- C7 amended: provided the record passes validation where
`IntegrityValidator.process` is concerned (corrupted records are diverted to
`corrupted` and never reach duplicate detection), processing a batch from a
fresh session puts the record at position j into the unique/valid partition
when no earlier record (no earlier validation-passing record, for the
integrity pipeline) bears the same fingerprint, and into the duplicates
partition when an earlier one does — in both `Deduplicator.process` and
`IntegrityValidator.process`.  Records equal on every hash field bear the
same fingerprint, so an exact duplicate of an earlier record always lands in
`duplicates`. -/
theorem C7_first_occurrence_wins (sha : String → String)
    (hf : Option (List String)) (track : Bool)
    (validator : TransactionValidator) (source : Option String)
    (b : List Record) (j : Nat) (hj : j < b.length) :
    ((∀ tx ∈ b.take j, compute_transaction_hash sha tx hf ≠
        compute_transaction_hash sha (b.get ⟨j, hj⟩) hf) →
      b.get ⟨j, hj⟩ ∈ ((Deduplicator.init hf track).process sha b source).2.unique)
    ∧ ((∃ tx ∈ b.take j, compute_transaction_hash sha tx hf =
        compute_transaction_hash sha (b.get ⟨j, hj⟩) hf) →
      b.get ⟨j, hj⟩ ∈ ((Deduplicator.init hf track).process sha b source).2.duplicates)
    ∧ ((validator.validateRecord sha (b.get ⟨j, hj⟩) none).is_valid = true →
      (∀ tx ∈ b.take j, (validator.validateRecord sha tx none).is_valid = true →
        compute_transaction_hash sha tx hf ≠
          compute_transaction_hash sha (b.get ⟨j, hj⟩) hf) →
      ∃ res, ((⟨Deduplicator.init hf true, validator, false, hf⟩ :
          IntegrityValidator).process sha b source).2 = Except.ok res ∧
        b.get ⟨j, hj⟩ ∈ res.valid)
    ∧ ((validator.validateRecord sha (b.get ⟨j, hj⟩) none).is_valid = true →
      (∃ tx ∈ b.take j, (validator.validateRecord sha tx none).is_valid = true ∧
        compute_transaction_hash sha tx hf =
          compute_transaction_hash sha (b.get ⟨j, hj⟩) hf) →
      ∃ res, ((⟨Deduplicator.init hf true, validator, false, hf⟩ :
          IntegrityValidator).process sha b source).2 = Except.ok res ∧
        b.get ⟨j, hj⟩ ∈ res.duplicates) := by
  have hsplit : b = b.take j ++ b.get ⟨j, hj⟩ :: b.drop (j + 1) := by
    conv_lhs => rw [← List.take_append_drop j b]
    rw [List.drop_eq_getElem_cons hj, List.get_eq_getElem]
  have hcfg := dedup_fold_config sha source (b.take j)
    ((Deduplicator.init hf track), ({} : DeduplicationResult))
  have hfq : ((b.take j).foldl (Deduplicator.processStep sha source)
      ((Deduplicator.init hf track), ({} : DeduplicationResult))).1.hash_fields
      = hf := hcfg.1
  have hdseen := dedup_fold_seen sha source (b.take j)
    ((Deduplicator.init hf track), ({} : DeduplicationResult))
  refine ⟨?_, ?_, ?_, ?_⟩
  · -- dedup, first occurrence
    intro hne
    have hnot : compute_transaction_hash sha (b.get ⟨j, hj⟩) hf ∉
        ((b.take j).foldl (Deduplicator.processStep sha source)
          ((Deduplicator.init hf track), ({} : DeduplicationResult))).1.seen_hashes := by
      intro hmem
      rcases (hdseen _).mp hmem with hx | ⟨t, ht, heq⟩
      · simp [Deduplicator.init] at hx
      · exact hne t ht (by simpa using heq)
    have hnot2 : compute_transaction_hash sha (b.get ⟨j, hj⟩)
        ((b.take j).foldl (Deduplicator.processStep sha source)
          ((Deduplicator.init hf track), ({} : DeduplicationResult))).1.hash_fields ∉
        ((b.take j).foldl (Deduplicator.processStep sha source)
          ((Deduplicator.init hf track), ({} : DeduplicationResult))).1.seen_hashes := by
      rw [hfq]
      exact hnot
    have hstep := (processStep_fresh sha source
      ((b.take j).foldl (Deduplicator.processStep sha source)
        ((Deduplicator.init hf track), ({} : DeduplicationResult)))
      (b.get ⟨j, hj⟩) hnot2).1
    obtain ⟨Δu, Δd, hu, _⟩ := dedup_fold_suffix sha source (b.drop (j + 1))
      (Deduplicator.processStep sha source
        ((b.take j).foldl (Deduplicator.processStep sha source)
          ((Deduplicator.init hf track), ({} : DeduplicationResult)))
        (b.get ⟨j, hj⟩))
    simp only [Deduplicator.process]
    conv_lhs => rw [hsplit]
    rw [List.foldl_append, List.foldl_cons]
    rw [hu, hstep]
    simp
  · -- dedup, later occurrence
    rintro ⟨t, ht, heq⟩
    have hmem : compute_transaction_hash sha (b.get ⟨j, hj⟩) hf ∈
        ((b.take j).foldl (Deduplicator.processStep sha source)
          ((Deduplicator.init hf track), ({} : DeduplicationResult))).1.seen_hashes := by
      refine (hdseen _).mpr (Or.inr ⟨t, ht, ?_⟩)
      simpa using heq
    have hmem2 : compute_transaction_hash sha (b.get ⟨j, hj⟩)
        ((b.take j).foldl (Deduplicator.processStep sha source)
          ((Deduplicator.init hf track), ({} : DeduplicationResult))).1.hash_fields ∈
        ((b.take j).foldl (Deduplicator.processStep sha source)
          ((Deduplicator.init hf track), ({} : DeduplicationResult))).1.seen_hashes := by
      rw [hfq]
      exact hmem
    have hstep := (processStep_hit sha source
      ((b.take j).foldl (Deduplicator.processStep sha source)
        ((Deduplicator.init hf track), ({} : DeduplicationResult)))
      (b.get ⟨j, hj⟩) hmem2).1
    obtain ⟨Δu, Δd, _, hd⟩ := dedup_fold_suffix sha source (b.drop (j + 1))
      (Deduplicator.processStep sha source
        ((b.take j).foldl (Deduplicator.processStep sha source)
          ((Deduplicator.init hf track), ({} : DeduplicationResult)))
        (b.get ⟨j, hj⟩))
    simp only [Deduplicator.process]
    conv_lhs => rw [hsplit]
    rw [List.foldl_append, List.foldl_cons]
    rw [hd, hstep]
    simp
  · -- integrity, first valid occurrence
    intro hnv hne
    obtain ⟨dd1, res1, Δv, Δd, Δc, Δcf, Δdc, h1, h2, h3, h4, h5, h6, h7, h8,
      h9, h10, h11, h12, h13, h14⟩ :=
      processLoop_ns_spec sha validator hf source (b.take j)
        (Deduplicator.init hf true) {}
    have hnot : compute_transaction_hash sha (b.get ⟨j, hj⟩) hf ∉ dd1.seen_hashes := by
      intro hmem
      have hx : compute_transaction_hash sha (b.get ⟨j, hj⟩) hf ∈
          (IntegrityValidator.processLoop sha validator false hf source
            (Deduplicator.init hf true) {} (b.take j)).1.seen_hashes := by
        rw [h1]
        exact hmem
      rcases processLoop_ns_seen_upper sha validator hf source (b.take j) _ _ _ hx with
        hy | ⟨t, ht, hvt, heq⟩
      · simp [Deduplicator.init] at hy
      · exact hne t ht hvt heq
    obtain ⟨dd2, res2, Δv2, Δd2, Δc2, Δcf2, Δdc2, g1, g2, g3, g4, g5, g6, g7,
      g8, g9, g10, g11, g12, g13, g14⟩ :=
      processLoop_ns_spec sha validator hf source (b.drop (j + 1))
        { dd1 with seen_hashes := dd1.seen_hashes ++
            [compute_transaction_hash sha (b.get ⟨j, hj⟩) hf] }
        { res1 with valid := res1.valid ++ [b.get ⟨j, hj⟩],
                    all_hashes := setAdd res1.all_hashes
                      (compute_transaction_hash sha (b.get ⟨j, hj⟩) hf) }
    have hloop : IntegrityValidator.processLoop sha validator false hf source
        (Deduplicator.init hf true) {} b = (dd2, Except.ok res2) := by
      conv_lhs => rw [hsplit]
      rw [processLoop_append sha validator false hf source (b.take j) _ _ _ _ _ h1]
      simp only [IntegrityValidator.processLoop]
      rw [if_pos hnv, if_neg hnot]
      exact g1
    refine ⟨res2, ?_, ?_⟩
    · simp only [IntegrityValidator.process, hloop]
    · rw [g2]
      simp
  · -- integrity, later occurrence of a valid record
    rintro hnv ⟨t, ht, hvt, heq⟩
    obtain ⟨dd1, res1, Δv, Δd, Δc, Δcf, Δdc, h1, h2, h3, h4, h5, h6, h7, h8,
      h9, h10, h11, h12, h13, h14⟩ :=
      processLoop_ns_spec sha validator hf source (b.take j)
        (Deduplicator.init hf true) {}
    have hmem : compute_transaction_hash sha (b.get ⟨j, hj⟩) hf ∈ dd1.seen_hashes := by
      have hx := (processLoop_ns_seen_lower sha validator hf source (b.take j)
        (Deduplicator.init hf true) {}).2 t ht hvt
      rw [h1] at hx
      rwa [heq] at hx
    obtain ⟨dd2, res2, Δv2, Δd2, Δc2, Δcf2, Δdc2, g1, g2, g3, g4, g5, g6, g7,
      g8, g9, g10, g11, g12, g13, g14⟩ :=
      processLoop_ns_spec sha validator hf source (b.drop (j + 1))
        (dd1.log_conflict (b.get ⟨j, hj⟩)
          (compute_transaction_hash sha (b.get ⟨j, hj⟩) hf)
          ConflictType.DUPLICATE source)
        { res1 with duplicates := res1.duplicates ++ [b.get ⟨j, hj⟩],
                    all_hashes := setAdd res1.all_hashes
                      (compute_transaction_hash sha (b.get ⟨j, hj⟩) hf) }
    have hloop : IntegrityValidator.processLoop sha validator false hf source
        (Deduplicator.init hf true) {} b = (dd2, Except.ok res2) := by
      conv_lhs => rw [hsplit]
      rw [processLoop_append sha validator false hf source (b.take j) _ _ _ _ _ h1]
      simp only [IntegrityValidator.processLoop]
      rw [if_pos hnv, if_pos hmem]
      exact g1
    refine ⟨res2, ?_, ?_⟩
    · simp only [IntegrityValidator.process, hloop]
    · rw [g3]
      simp

/-- Witness for C7 at spec Scenario 5: in the batch
`[{"id":"1","payload":"a"}, {"id":"2","payload":"b"}, {"id":"1","payload":"a"}]`
the third record — an exact duplicate of the first — lands in `duplicates`
for both `Deduplicator.process` and non-strict `IntegrityValidator.process`. -/
theorem C7_witness :
    (([("id", PyVal.str "1"), ("payload", PyVal.str "a")] : Record) ∈
      ((Deduplicator.init none true).process idDigest
        [[("id", PyVal.str "1"), ("payload", PyVal.str "a")],
         [("id", PyVal.str "2"), ("payload", PyVal.str "b")],
         [("id", PyVal.str "1"), ("payload", PyVal.str "a")]] none).2.duplicates)
    ∧ (∃ res, ((⟨Deduplicator.init none true, TransactionValidator.init none [] none,
          false, none⟩ : IntegrityValidator).process idDigest
          [[("id", PyVal.str "1"), ("payload", PyVal.str "a")],
           [("id", PyVal.str "2"), ("payload", PyVal.str "b")],
           [("id", PyVal.str "1"), ("payload", PyVal.str "a")]] none).2 = Except.ok res ∧
        ([("id", PyVal.str "1"), ("payload", PyVal.str "a")] : Record) ∈
          res.duplicates) := by
  have h := C7_first_occurrence_wins idDigest none true
    (TransactionValidator.init none [] none) none
    [[("id", PyVal.str "1"), ("payload", PyVal.str "a")],
     [("id", PyVal.str "2"), ("payload", PyVal.str "b")],
     [("id", PyVal.str "1"), ("payload", PyVal.str "a")]] 2 (by decide)
  refine ⟨?_, ?_⟩
  · exact h.2.1 ⟨[("id", PyVal.str "1"), ("payload", PyVal.str "a")],
      by decide, by decide⟩
  · exact h.2.2.2 (by decide)
      ⟨[("id", PyVal.str "1"), ("payload", PyVal.str "a")],
        by decide, by decide, by decide⟩

/-- Witness for the amended C1 at a concrete batch. -/
theorem C1_witness :
    ∃ res, ((⟨Deduplicator.init none true, TransactionValidator.init none [] none,
        false, none⟩ : IntegrityValidator).process idDigest
        [[("id", PyVal.str "1")], ([] : Record)] none).2 = Except.ok res ∧
      ∀ h, h ∈ res.all_hashes ↔
        (∃ tx ∈ res.valid, compute_transaction_hash idDigest tx none = h) ∨
        (∃ tx ∈ res.duplicates, compute_transaction_hash idDigest tx none = h) :=
  C1_amended_all_hashes idDigest (Deduplicator.init none true)
    (TransactionValidator.init none [] none) none none
    [[("id", PyVal.str "1")], ([] : Record)]

/-- Witness for C2 at a concrete batch mixing valid, duplicate and corrupted
records. -/
theorem C2_witness :
    ∃ res, ((⟨Deduplicator.init none true, TransactionValidator.init none [] none,
        false, none⟩ : IntegrityValidator).process idDigest
        [[("id", PyVal.str "1")], [("id", PyVal.str "1")], ([] : Record)] none).2
        = Except.ok res ∧
      res.valid.length + res.duplicates.length + res.corrupted.length
        = [[("id", PyVal.str "1")], [("id", PyVal.str "1")], ([] : Record)].length :=
  C2_partition_complete idDigest (Deduplicator.init none true)
    (TransactionValidator.init none [] none) none none
    [[("id", PyVal.str "1")], [("id", PyVal.str "1")], ([] : Record)]

/-- Witness for C8 at a concrete state and record. -/
theorem C8_witness :
    (((Deduplicator.init none true).check idDigest [("id", PyVal.str "1")]).1
      = Deduplicator.init none true)
    ∧ (((Deduplicator.init none true).check idDigest [("id", PyVal.str "1")]).2 = true ↔
        compute_transaction_hash idDigest [("id", PyVal.str "1")]
          (Deduplicator.init none true).hash_fields
          ∈ (Deduplicator.init none true).seen_hashes)
    ∧ ((Deduplicator.init none true).check idDigest [("id", PyVal.str "1")]).1.seen_hashes
      = (Deduplicator.init none true).seen_hashes
    ∧ ((Deduplicator.init none true).check idDigest [("id", PyVal.str "1")]).1.conflicts
      = (Deduplicator.init none true).conflicts :=
  C8_check_pure_membership idDigest (Deduplicator.init none true)
    [("id", PyVal.str "1")]

/-- Witness for C10 at a concrete batch with one duplicate and one corrupted
record. -/
theorem C10_witness :
    ∃ res, ((⟨Deduplicator.init none true, TransactionValidator.init none [] none,
        false, none⟩ : IntegrityValidator).process idDigest
        [[("id", PyVal.str "1")], [("id", PyVal.str "1")], ([] : Record)] none).2
        = Except.ok res ∧
      (∀ c ∈ res.conflicts, c.conflict_type = ConflictType.CORRUPTED) ∧
      res.conflicts.length = res.corrupted.length ∧
      (∃ Δdc, ((⟨Deduplicator.init none true, TransactionValidator.init none [] none,
          false, none⟩ : IntegrityValidator).process idDigest
          [[("id", PyVal.str "1")], [("id", PyVal.str "1")], ([] : Record)]
          none).1.dedup.conflicts = (Deduplicator.init none true).conflicts ++ Δdc ∧
        ∀ c ∈ Δdc, c.conflict_type = ConflictType.DUPLICATE) ∧
      ((⟨Deduplicator.init none true, TransactionValidator.init none [] none,
          false, none⟩ : IntegrityValidator).process idDigest
          [[("id", PyVal.str "1")], [("id", PyVal.str "1")], ([] : Record)]
          none).1.conflicts
        = ((⟨Deduplicator.init none true, TransactionValidator.init none [] none,
          false, none⟩ : IntegrityValidator).process idDigest
          [[("id", PyVal.str "1")], [("id", PyVal.str "1")], ([] : Record)]
          none).1.dedup.conflicts :=
  C10_conflict_separation idDigest (Deduplicator.init none true)
    (TransactionValidator.init none [] none) none none
    [[("id", PyVal.str "1")], [("id", PyVal.str "1")], ([] : Record)]
